import Mathlib

/-! Verification of the SQL-safe identifier sanitizer, schema-mapping
builder, query rewriter, path escaping and error-handling skeleton of
`query_csv_duckdb.py`. Strings are modelled as their lists of characters
(`String.data`); the ASCII-oriented Python primitives (`str.strip`,
`str.lower`, the two `re.sub` patterns, `str.replace`, `re.match`) are
embedded as executable functions on `List Char`. -/

set_option maxRecDepth 8000

namespace QueryCsv

/-! ### ASCII character classes -/

/-- The regex class `[0-9A-Za-z]` as a test on Unicode scalar values
(48–57 are the digits, 65–90 the uppercase and 97–122 the lowercase
ASCII letters). -/
def isAlnumCh (c : Char) : Bool :=
  (48 ≤ c.toNat && c.toNat ≤ 57) || (65 ≤ c.toNat && c.toNat ≤ 90) ||
    (97 ≤ c.toNat && c.toNat ≤ 122)

/-- The characters removed by Python `str.strip()`, modelled over the ASCII
whitespace set: space, tab, newline, vertical tab, form feed, carriage
return. -/
def isSpaceCh (c : Char) : Bool :=
  c.toNat = 32 || c.toNat = 9 || c.toNat = 10 || c.toNat = 11 ||
    c.toNat = 12 || c.toNat = 13

/-- The regex class `[0-9]`. -/
def isDigitCh (c : Char) : Bool := 48 ≤ c.toNat && c.toNat ≤ 57

/-- The underscore character (scalar value 95). -/
def isUndCh (c : Char) : Bool := c.toNat = 95

/-- ASCII lower-casing of one character, as Python `str.lower()` acts on
the ASCII range (the column names in play are ASCII). -/
def lowerCh (c : Char) : Char :=
  if 65 ≤ c.toNat ∧ c.toNat ≤ 90 then Char.ofNat (c.toNat + 32) else c

/-! ### The sanitizer pipeline (`sanitize_identifier`, lines 91–103 and
140–149 of `query_csv_duckdb.py`; the two occurrences are identical) -/

/-- Remove trailing characters satisfying `p` (the right half of Python
`str.strip`). -/
def dropTrailWhile (p : Char → Bool) (l : List Char) : List Char :=
  (l.reverse.dropWhile p).reverse

/-- Python `name.strip()`: remove leading and trailing whitespace. -/
def pyStrip (l : List Char) : List Char :=
  dropTrailWhile isSpaceCh (l.dropWhile isSpaceCh)

/-- Single pass implementing `re.sub(r'[^0-9A-Za-z]+', '_', s)`: the flag
records whether the scanner already stands inside a run of
non-alphanumeric characters, so each maximal such run emits exactly one
underscore. -/
def subRunsAux : Bool → List Char → List Char
  | _, [] => []
  | inRun, c :: rest =>
    if isAlnumCh c then c :: subRunsAux false rest
    else if inRun then subRunsAux true rest
    else '_' :: subRunsAux true rest

/-- `re.sub(r'[^0-9A-Za-z]+', '_', s)`. -/
def subRuns (l : List Char) : List Char := subRunsAux false l

/-- Single pass implementing `re.sub(r'__+', '_', s)`: inside a run of
underscores only the first is kept. A run of a single underscore is left
unchanged, so the output agrees with the regex, which only matches runs of
length at least two. -/
def collapseUAux : Bool → List Char → List Char
  | _, [] => []
  | inRun, c :: rest =>
    if isUndCh c then
      if inRun then collapseUAux true rest else c :: collapseUAux true rest
    else c :: collapseUAux false rest

/-- `re.sub(r'__+', '_', s)`. -/
def collapseU (l : List Char) : List Char := collapseUAux false l

/-- Python `s.strip('_')`: remove every leading and trailing underscore. -/
def stripUnd (l : List Char) : List Char :=
  dropTrailWhile isUndCh (l.dropWhile isUndCh)

/-- Python `s.lower()` over the ASCII range. -/
def pyLower (l : List Char) : List Char := l.map lowerCh

/-- `sanitize_identifier` of `query_csv_duckdb.py` on the character list:
strip whitespace, replace non-alphanumeric runs with `_`, collapse multiple
underscores, strip underscores and lower-case, substitute `col` for an
empty result, and prefix `c_` when the result starts with a digit
(`re.match(r'^[0-9]', s)`). -/
def sanitizeChars (l : List Char) : List Char :=
  let s1 := pyStrip l
  let s2 := subRuns s1
  let s3 := collapseU s2
  let s4 := pyLower (stripUnd s3)
  let s5 := if s4 = [] then ['c', 'o', 'l'] else s4
  if isDigitCh (s5.headD 'a') then 'c' :: '_' :: s5 else s5

/-- `sanitize_identifier` at the string level. -/
def sanitize_identifier (s : String) : String := ⟨sanitizeChars s.data⟩

/-- The `if s == '': s = 'col'` step of the sanitizer, as a named stage. -/
def colStage (s4 : List Char) : List Char :=
  if s4 = [] then ['c', 'o', 'l'] else s4

/-- The leading-digit step of the sanitizer (`if re.match(r'^[0-9]', s):
s = 'c_' + s`), as a named stage. -/
def digitStage (s5 : List Char) : List Char :=
  if isDigitCh (s5.headD 'a') then 'c' :: '_' :: s5 else s5

/-- No two adjacent underscores anywhere in the list. -/
abbrev NoDD (l : List Char) : Prop :=
  l.Chain' (fun a b => isUndCh a = false ∨ isUndCh b = false)

/-! ### The sanitizer as §4.1 of the spec words it -/

/-- Modelled from the spec: "Replace every maximal run of characters that
is neither an ASCII letter nor an ASCII digit with a single underscore",
transcribed directly (each maximal run is consumed with `dropWhile`). -/
def specReplaceRuns : List Char → List Char
  | [] => []
  | c :: rest =>
    if isAlnumCh c then c :: specReplaceRuns rest
    else '_' :: specReplaceRuns (rest.dropWhile (fun d => !isAlnumCh d))
termination_by l => l.length
decreasing_by
  · simp
  · have h := (List.dropWhile_suffix (l := rest)
      (fun d => !isAlnumCh d)).length_le
    simp only [List.length_cons]
    omega

/-- Modelled from the spec: "Collapse any resulting run of multiple
consecutive underscores into one", transcribed directly (each run of
underscores is consumed with `dropWhile`; a run of one is reproduced
unchanged). -/
def specCollapse : List Char → List Char
  | [] => []
  | c :: rest =>
    if isUndCh c then '_' :: specCollapse (rest.dropWhile isUndCh)
    else c :: specCollapse rest
termination_by l => l.length
decreasing_by
  · have h := (List.dropWhile_suffix (l := rest) isUndCh).length_le
    simp only [List.length_cons]
    omega
  · simp

/-- The sanitizer exactly as §4.1 of the spec sequences it: trim
whitespace; replace each maximal non-alphanumeric run with one underscore;
collapse consecutive underscores; strip leading and trailing underscores;
lower-case; substitute `col` for an empty result; prefix `c_` when the
result begins with a digit. -/
def spec_sanitize (s : String) : String :=
  let s1 := pyStrip s.data
  let s2 := specReplaceRuns s1
  let s3 := specCollapse s2
  let s4 := stripUnd s3
  let s5 := pyLower s4
  let s6 := if s5 = [] then ['c', 'o', 'l'] else s5
  ⟨if isDigitCh (s6.headD 'a') then 'c' :: '_' :: s6 else s6⟩

/-! ### Schema mapping builder (lines 109–112 and 151–154) -/

/-- The (original, sanitized) pairs built one per column in schema order
(`for orig in schema['column'].tolist(): pairs.append((orig, safe))`; the
`--show-safe` branch builds the same pairs as dictionaries). -/
def buildPairs (cols : List String) : List (String × String) :=
  cols.map (fun orig => (orig, sanitize_identifier orig))

/-! ### Python `str.replace` and the query rewriter (lines 155–157) -/

/-- Fuel-bounded core of Python `str.replace`: replace every
non-overlapping occurrence of `needle`, scanning left to right and
continuing after each replacement. `replaceAll` supplies `l.length` as
fuel, which always suffices; the degenerate empty needle is excluded by
the test in the scan (both call sites pass a fixed non-empty pattern). -/
def replaceAllF (needle repl : List Char) : Nat → List Char → List Char
  | _, [] => []
  | 0, l => l
  | fuel + 1, c :: rest =>
    if needle ≠ [] ∧ needle.isPrefixOf (c :: rest) then
      repl ++ replaceAllF needle repl fuel (List.drop needle.length (c :: rest))
    else
      c :: replaceAllF needle repl fuel rest

/-- Python `l.replace(needle, repl)` on character lists. -/
def replaceAll (needle repl l : List Char) : List Char :=
  replaceAllF needle repl l.length l

/-- Python `s.replace(old, new)` at the string level. -/
def pyReplace (old new s : String) : String :=
  ⟨replaceAll old.data new.data s.data⟩

/-- The fixed marker the rewriter targets. -/
def marker : String := "read_csv_auto('{csv}')"

/-- Line 155: `', '.join([f'"{o}" AS {s}' for (o, s) in pairs])`. -/
def select_list (pairs : List (String × String)) : String :=
  String.intercalate ", " (pairs.map (fun p => "\"" ++ p.1 ++ "\" AS " ++ p.2))

/-- Line 156: the sanitized subselect substituted for the marker. -/
def subqueryOf (pairs : List (String × String)) : String :=
  "(SELECT " ++ select_list pairs ++ " FROM read_csv_auto('{csv}'))"

/-- Line 157: `query_text.replace("read_csv_auto('{csv}')", subquery)`. -/
def rewriteQuery (pairs : List (String × String)) (template : String) : String :=
  pyReplace marker (subqueryOf pairs) template

/-- Modelled from the spec ("Replace the first (and only expected) textual
occurrence of the fixed marker string"): replace only the first occurrence
of the needle and leave the rest of the text unchanged. -/
def replaceFirst (needle repl : List Char) : List Char → List Char
  | [] => []
  | c :: rest =>
    if needle ≠ [] ∧ needle.isPrefixOf (c :: rest) then
      repl ++ List.drop needle.length (c :: rest)
    else
      c :: replaceFirst needle repl rest

/-- Whether `needle` occurs contiguously inside the list. -/
def containsSeq (needle : List Char) : List Char → Bool
  | [] => needle.isEmpty
  | c :: rest => needle.isPrefixOf (c :: rest) || containsSeq needle rest

/-! ### Path escaping (§4.4; `csv_path.replace` at lines 38, 50, 76, 118) -/

/-- `escape_path`: double every backslash through the same `str.replace`
primitive the call sites use. -/
def escape_path (p : String) : String := pyReplace "\\" "\\\\" p

/-! ### Engine interaction (`run_query` lines 33–43, `show_columns` lines
46–62, `main` lines 78–85) -/

/-- An error raised by the embedded engine (`duckdb.Error`). -/
structure EngineError where
  msg : String

/-- A tabular result as the script consumes it: the column names and their
printed dtypes. -/
structure ResultFrame where
  cols : List String
  dtypes : List String

/-- The external engine collaborator: executing one SQL text either yields
a frame or raises an engine error. -/
abbrev Engine : Type := String → Except EngineError ResultFrame

/-- The `LIMIT 0` probe query of `show_columns` (line 51). -/
def probeSql (csv_path : String) : String :=
  "SELECT * FROM read_csv_auto('" ++ escape_path csv_path ++ "') LIMIT 0"

/-- `query.format(csv=escaped)` (line 39): substitute the escaped path for
the `{csv}` placeholder, modelled for templates whose only field is
`{csv}`. -/
def formatCsv (query csv_path : String) : String :=
  pyReplace "{csv}" (escape_path csv_path) query

/-- `run_query`: escape the path, format the query, execute. No handler
stands around `conn.execute`, so an engine failure comes back as the
un-caught `Except.error`. -/
def run_query (engine : Engine) (csv_path query : String) :
    Except EngineError ResultFrame :=
  engine (formatCsv query csv_path)

/-- `show_columns`: run the probe under `except duckdb.Error: return None`;
an engine failure becomes `none`, otherwise the (column, dtype) schema is
assembled. -/
def show_columns (engine : Engine) (csv_path : String) :
    Option (List (String × String)) :=
  match engine (probeSql csv_path) with
  | Except.error _ => none
  | Except.ok df => some (df.cols.zip df.dtypes)

/-- The outcome of one `main` invocation as far as the claims reach: exit
status with its diagnostic, or the first printed headline. -/
inductive MainOutcome where
  | exited (code : Nat) (diagnostic : String)
  | printed (headline : String)
deriving DecidableEq

/-- The `--show-columns` branch of `main`: an absent or empty schema
prints the diagnostic and exits with status 1, otherwise the schema is
printed. -/
def mainShowColumns (engine : Engine) (csv_path : String) : MainOutcome :=
  match show_columns engine csv_path with
  | none =>
    MainOutcome.exited 1 "No columns/empty file or unable to read columns."
  | some schema =>
    if schema.isEmpty then
      MainOutcome.exited 1 "No columns/empty file or unable to read columns."
    else MainOutcome.printed "Columns / Schema:"

/-! ### The `--show-safe` example snippet (lines 113–121) -/

/-- The entries the example subquery is built from: `mapping[:20]`. -/
def exampleEntries (cols : List String) : List (String × String) :=
  (buildPairs cols).take 20

/-- `safe_cols` of line 117 (note the lower-case `as` in this branch). -/
def exampleSafeCols (cols : List String) : String :=
  String.intercalate ", "
    ((exampleEntries cols).map (fun r => "\"" ++ r.1 ++ "\" as " ++ r.2))

/-- The example snippet printed at lines 118–120. -/
def exampleSnippet (cols : List String) (csv_path : String) : String :=
  "(SELECT " ++ exampleSafeCols cols ++ " FROM read_csv_auto('" ++
    escape_path csv_path ++ "')) AS data"


/-! ### Equivalence of the single-pass embedding with the spec's
maximal-run transcription -/

theorem subRunsAux_eq_spec (l : List Char) :
    subRunsAux false l = specReplaceRuns l ∧
      subRunsAux true l = specReplaceRuns (l.dropWhile (fun d => !isAlnumCh d)) := by
  induction l with
  | nil =>
    constructor
    · rw [specReplaceRuns]
      rfl
    · rw [List.dropWhile_nil, specReplaceRuns]
      rfl
  | cons c rest ih =>
    by_cases hc : isAlnumCh c
    · constructor
      · rw [specReplaceRuns, if_pos hc]
        simp [subRunsAux, hc, ih.1]
      · rw [List.dropWhile_cons, if_neg (by simp [hc]), specReplaceRuns, if_pos hc]
        simp [subRunsAux, hc, ih.1]
    · constructor
      · rw [specReplaceRuns, if_neg hc]
        simp [subRunsAux, hc, ih.2]
      · rw [List.dropWhile_cons, if_pos (by simp [hc])]
        simp [subRunsAux, hc, ih.2]

theorem isUndCh_iff (c : Char) : isUndCh c = true ↔ c = '_' := by
  constructor
  · intro h
    have h95 : c.toNat = 95 := by simpa [isUndCh] using h
    have h2 : Char.ofNat c.toNat = c := Char.ofNat_toNat c
    rw [h95] at h2
    rw [← h2]
  · intro h
    subst h
    decide

theorem collapseUAux_eq_spec (l : List Char) :
    collapseUAux false l = specCollapse l ∧
      collapseUAux true l = specCollapse (l.dropWhile isUndCh) := by
  induction l with
  | nil =>
    constructor
    · rw [specCollapse]
      rfl
    · rw [List.dropWhile_nil, specCollapse]
      rfl
  | cons c rest ih =>
    by_cases hc : isUndCh c
    · have hcu : c = '_' := (isUndCh_iff c).mp hc
      subst hcu
      constructor
      · rw [specCollapse, if_pos hc]
        simp [collapseUAux, hc, ih.2]
      · rw [List.dropWhile_cons, if_pos hc]
        simpa [collapseUAux, hc] using ih.2
    · constructor
      · rw [specCollapse, if_neg hc]
        simp [collapseUAux, hc, ih.1]
      · rw [List.dropWhile_cons, if_neg hc, specCollapse, if_neg hc]
        simp [collapseUAux, hc, ih.1]

/-- C1: `sanitize_identifier` applies exactly the step sequence of §4.1 of
the spec — trim whitespace; replace each maximal non-alphanumeric run with
a single underscore; collapse consecutive underscores; strip leading and
trailing underscores; lower-case; substitute `col` for an empty result;
prefix `c_` before a leading digit — and on the spec's examples it returns
`c_3p` for `3P%` and `field_goals_made` for `Field Goals Made`. -/
theorem sanitize_identifier_follows_spec_steps :
    (∀ s : String, sanitize_identifier s = spec_sanitize s) ∧
      sanitize_identifier "3P%" = "c_3p" ∧
      sanitize_identifier "Field Goals Made" = "field_goals_made" := by
  refine ⟨fun s => ?_, rfl, rfl⟩
  simp only [sanitize_identifier, spec_sanitize, sanitizeChars, subRuns, collapseU]
  rw [(subRunsAux_eq_spec (pyStrip s.data)).1,
    (collapseUAux_eq_spec (specReplaceRuns (pyStrip s.data))).1]

/-! ### Validity of sanitized identifiers (§3 invariant, §4.1 contract) -/

/-- A character legal in a bare SQL identifier as produced by the
sanitizer: ASCII lowercase letter, digit, or underscore. -/
def validCh (c : Char) : Bool :=
  (97 ≤ c.toNat && c.toNat ≤ 122) || isDigitCh c || isUndCh c

theorem toNat_lowerCh (c : Char) :
    (lowerCh c).toNat =
      if 65 ≤ c.toNat ∧ c.toNat ≤ 90 then c.toNat + 32 else c.toNat := by
  unfold lowerCh
  by_cases h : 65 ≤ c.toNat ∧ c.toNat ≤ 90
  · rw [if_pos h, if_pos h]
    have hv : (c.toNat + 32).isValidChar := Or.inl (by omega)
    unfold Char.ofNat
    rw [dif_pos hv]
    rfl
  · rw [if_neg h, if_neg h]

theorem lowerCh_valid {c : Char}
    (h : isAlnumCh c = true ∨ isUndCh c = true) : validCh (lowerCh c) = true := by
  have ht := toNat_lowerCh c
  simp only [isAlnumCh, isUndCh, Bool.or_eq_true, Bool.and_eq_true,
    decide_eq_true_eq] at h
  simp only [validCh, isDigitCh, isUndCh, Bool.or_eq_true, Bool.and_eq_true,
    decide_eq_true_eq]
  by_cases hu : 65 ≤ c.toNat ∧ c.toNat ≤ 90
  · rw [if_pos hu] at ht
    omega
  · rw [if_neg hu] at ht
    omega

theorem mem_subRunsAux {c : Char} :
    ∀ (flag : Bool) (l : List Char), c ∈ subRunsAux flag l →
      isAlnumCh c = true ∨ isUndCh c = true := by
  intro flag l
  induction l generalizing flag with
  | nil => intro h; simp [subRunsAux] at h
  | cons d rest ih =>
    intro h
    by_cases hd : isAlnumCh d
    · rw [subRunsAux, if_pos hd] at h
      rcases List.mem_cons.mp h with h | h
      · subst h; exact Or.inl hd
      · exact ih false h
    · rw [subRunsAux, if_neg hd] at h
      cases flag with
      | true => exact ih true (by simpa using h)
      | false =>
        rcases List.mem_cons.mp (by simpa using h) with h | h
        · subst h; exact Or.inr (by decide)
        · exact ih true h

theorem mem_collapseUAux {c : Char} :
    ∀ (flag : Bool) (l : List Char), c ∈ collapseUAux flag l → c ∈ l := by
  intro flag l
  induction l generalizing flag with
  | nil => intro h; simp [collapseUAux] at h
  | cons d rest ih =>
    intro h
    by_cases hd : isUndCh d
    · rw [collapseUAux, if_pos hd] at h
      cases flag with
      | true => exact List.mem_cons_of_mem d (ih true (by simpa using h))
      | false =>
        rcases List.mem_cons.mp (by simpa using h) with h | h
        · subst h; exact List.mem_cons_self c rest
        · exact List.mem_cons_of_mem d (ih true h)
    · rw [collapseUAux, if_neg hd] at h
      rcases List.mem_cons.mp h with h | h
      · subst h; exact List.mem_cons_self c rest
      · exact List.mem_cons_of_mem d (ih false h)

theorem mem_dropTrailWhile {c : Char} {p : Char → Bool} {l : List Char}
    (h : c ∈ dropTrailWhile p l) : c ∈ l := by
  unfold dropTrailWhile at h
  rw [List.mem_reverse] at h
  exact List.mem_reverse.mp ((List.dropWhile_suffix p).sublist.subset h)

theorem mem_stripUnd {c : Char} {l : List Char} (h : c ∈ stripUnd l) : c ∈ l :=
  (List.dropWhile_suffix isUndCh).sublist.subset (mem_dropTrailWhile h)

theorem sanitizeChars_valid (l : List Char) :
    sanitizeChars l ≠ [] ∧ (∀ c ∈ sanitizeChars l, validCh c = true) ∧
      isDigitCh ((sanitizeChars l).headD 'a') = false := by
  have hm : ∀ c ∈ pyLower (stripUnd (collapseU (subRuns (pyStrip l)))),
      validCh c = true := by
    intro c hc
    rcases List.mem_map.mp hc with ⟨d, hd, rfl⟩
    exact lowerCh_valid (mem_subRunsAux false _ (mem_collapseUAux false _ (mem_stripUnd hd)))
  have hE : sanitizeChars l =
      (if isDigitCh ((if pyLower (stripUnd (collapseU (subRuns (pyStrip l)))) = []
            then ['c', 'o', 'l']
            else pyLower (stripUnd (collapseU (subRuns (pyStrip l))))).headD 'a')
        then 'c' :: '_' ::
          (if pyLower (stripUnd (collapseU (subRuns (pyStrip l)))) = []
            then ['c', 'o', 'l']
            else pyLower (stripUnd (collapseU (subRuns (pyStrip l)))))
        else
          (if pyLower (stripUnd (collapseU (subRuns (pyStrip l)))) = []
            then ['c', 'o', 'l']
            else pyLower (stripUnd (collapseU (subRuns (pyStrip l)))))) := rfl
  rw [hE]
  set s4 := pyLower (stripUnd (collapseU (subRuns (pyStrip l)))) with hs4
  by_cases h4 : s4 = []
  · rw [if_pos h4]
    by_cases hd : isDigitCh ((['c', 'o', 'l'] : List Char).headD 'a')
    · rw [if_pos hd]
      exact ⟨by simp, by decide, by decide⟩
    · rw [if_neg hd]
      exact ⟨by simp, by decide, by decide⟩
  · rw [if_neg h4]
    by_cases hd : isDigitCh (s4.headD 'a')
    · rw [if_pos hd]
      refine ⟨by simp, ?_, rfl⟩
      intro c hc
      rcases List.mem_cons.mp hc with rfl | hc
      · decide
      rcases List.mem_cons.mp hc with rfl | hc
      · decide
      · exact hm c hc
    · rw [if_neg hd]
      refine ⟨h4, hm, ?_⟩
      simpa using hd

theorem data_sanitize_identifier (s : String) :
    (sanitize_identifier s).data = sanitizeChars s.data := by
  rw [sanitize_identifier]

theorem sanitize_empty_eq_col : sanitize_identifier "" = "col" := rfl

theorem sanitize_blank_eq_col : sanitize_identifier "   " = "col" := rfl

/-- C2: for every input string `sanitize_identifier` returns a non-empty
result made only of ASCII lowercase letters, digits and underscores whose
first character is not a digit (a valid bare SQL identifier), and on the
empty and whitespace-only inputs it returns `col`. -/
theorem sanitize_identifier_always_valid (s : String) :
    (sanitize_identifier s).data ≠ [] ∧
      (sanitize_identifier s).data.all validCh = true ∧
      isDigitCh ((sanitize_identifier s).data.headD 'a') = false ∧
      sanitize_identifier "" = "col" ∧ sanitize_identifier "   " = "col" := by
  have h := sanitizeChars_valid s.data
  rw [data_sanitize_identifier]
  exact ⟨h.1, List.all_eq_true.mpr h.2.1, h.2.2, sanitize_empty_eq_col,
    sanitize_blank_eq_col⟩

/-! ### Character-level facts -/

theorem validCh_not_space {c : Char} (h : validCh c = true) : isSpaceCh c = false := by
  simp only [validCh, isDigitCh, isUndCh, Bool.or_eq_true, Bool.and_eq_true,
    decide_eq_true_eq] at h
  simp only [isSpaceCh, Bool.or_eq_false_iff, decide_eq_false_iff_not]
  omega

theorem validCh_alnum_or_und {c : Char} (h : validCh c = true) :
    isAlnumCh c = true ∨ isUndCh c = true := by
  simp only [validCh, isDigitCh, isUndCh, Bool.or_eq_true, Bool.and_eq_true,
    decide_eq_true_eq] at h
  simp only [isAlnumCh, isUndCh, Bool.or_eq_true, Bool.and_eq_true, decide_eq_true_eq]
  omega

theorem und_not_alnum {c : Char} (h : isUndCh c = true) : isAlnumCh c = false := by
  simp only [isUndCh, decide_eq_true_eq] at h
  simp only [isAlnumCh, Bool.or_eq_false_iff, Bool.and_eq_false_iff,
    decide_eq_false_iff_not]
  omega

theorem digit_not_und {c : Char} (h : isDigitCh c = true) : isUndCh c = false := by
  simp only [isDigitCh, Bool.and_eq_true, decide_eq_true_eq] at h
  simp only [isUndCh, decide_eq_false_iff_not]
  omega

theorem lowerCh_of_valid {c : Char} (h : validCh c = true) : lowerCh c = c := by
  simp only [validCh, isDigitCh, isUndCh, Bool.or_eq_true, Bool.and_eq_true,
    decide_eq_true_eq] at h
  unfold lowerCh
  rw [if_neg (by omega)]

theorem isUndCh_lowerCh {c : Char} (h : isUndCh c = false) :
    isUndCh (lowerCh c) = false := by
  have ht := toNat_lowerCh c
  simp only [isUndCh, decide_eq_false_iff_not] at h ⊢
  by_cases hu : 65 ≤ c.toNat ∧ c.toNat ≤ 90
  · rw [if_pos hu] at ht
    omega
  · rw [if_neg hu] at ht
    omega

/-! ### Unfolding equations for the single-pass scanners -/

theorem subRunsAux_cons_alnum {c : Char} {rest : List Char} (flag : Bool)
    (h : isAlnumCh c = true) :
    subRunsAux flag (c :: rest) = c :: subRunsAux false rest := by
  rw [subRunsAux, if_pos h]

theorem subRunsAux_cons_true {c : Char} {rest : List Char}
    (h : isAlnumCh c = false) :
    subRunsAux true (c :: rest) = subRunsAux true rest := by
  rw [subRunsAux, if_neg (by simp [h]), if_pos rfl]

theorem subRunsAux_cons_false {c : Char} {rest : List Char}
    (h : isAlnumCh c = false) :
    subRunsAux false (c :: rest) = '_' :: subRunsAux true rest := by
  rw [subRunsAux, if_neg (by simp [h]), if_neg (by simp)]

theorem collapseUAux_cons_true_und {c : Char} {rest : List Char}
    (h : isUndCh c = true) :
    collapseUAux true (c :: rest) = collapseUAux true rest := by
  rw [collapseUAux, if_pos h, if_pos rfl]

theorem collapseUAux_cons_false_und {c : Char} {rest : List Char}
    (h : isUndCh c = true) :
    collapseUAux false (c :: rest) = c :: collapseUAux true rest := by
  rw [collapseUAux, if_pos h, if_neg (by simp)]

theorem collapseUAux_cons_other {c : Char} {rest : List Char} (flag : Bool)
    (h : isUndCh c = false) :
    collapseUAux flag (c :: rest) = c :: collapseUAux false rest := by
  rw [collapseUAux, if_neg (by simp [h])]

/-! ### Fixpoint lemmas for the stripping primitives -/

theorem dropWhile_eq_self_of_all {p : Char → Bool} {l : List Char}
    (h : ∀ c ∈ l, p c = false) : l.dropWhile p = l := by
  cases l with
  | nil => rfl
  | cons c rest =>
    rw [List.dropWhile_cons, if_neg (by simp [h c (List.mem_cons_self c rest)])]

theorem dropTrailWhile_eq_self_of_all {p : Char → Bool} {l : List Char}
    (h : ∀ c ∈ l, p c = false) : dropTrailWhile p l = l := by
  unfold dropTrailWhile
  rw [dropWhile_eq_self_of_all (fun c hc => h c (List.mem_reverse.mp hc)),
    List.reverse_reverse]

theorem dropWhile_eq_self_of_head {p : Char → Bool} {l : List Char}
    (h : ∀ d, l.head? = some d → p d = false) : l.dropWhile p = l := by
  cases l with
  | nil => rfl
  | cons c rest => rw [List.dropWhile_cons, if_neg (by simp [h c rfl])]

theorem dropTrailWhile_eq_self_of_getLast {p : Char → Bool} {l : List Char}
    (h : ∀ d, l.getLast? = some d → p d = false) : dropTrailWhile p l = l := by
  unfold dropTrailWhile
  rw [dropWhile_eq_self_of_head
    (fun d hd => h d (by rwa [List.head?_reverse] at hd)), List.reverse_reverse]

theorem head?_dropWhile {p : Char → Bool} :
    ∀ {l : List Char} {d : Char}, (l.dropWhile p).head? = some d → p d = false := by
  intro l
  induction l with
  | nil => intro d h; simp at h
  | cons c rest ih =>
    intro d h
    rw [List.dropWhile_cons] at h
    by_cases hc : p c
    · rw [if_pos hc] at h
      exact ih h
    · rw [if_neg hc] at h
      obtain rfl : c = d := by simpa using h
      simpa using hc

theorem head?_dropTrailWhile {p : Char → Bool} {l : List Char} {d : Char}
    (h : (dropTrailWhile p l).head? = some d) : l.head? = some d := by
  have hsuf : l.reverse.dropWhile p <:+ l.reverse := List.dropWhile_suffix p
  have hpre : dropTrailWhile p l <+: l := by
    have := List.reverse_prefix.mpr hsuf
    rwa [List.reverse_reverse] at this
  obtain ⟨t, ht⟩ := hpre
  have hne : dropTrailWhile p l ≠ [] := by
    intro hnil
    rw [hnil] at h
    simp at h
  rw [← ht, List.head?_append_of_ne_nil _ hne, h]

theorem getLast?_dropTrailWhile {p : Char → Bool} {l : List Char} {d : Char}
    (h : (dropTrailWhile p l).getLast? = some d) : p d = false := by
  unfold dropTrailWhile at h
  rw [List.getLast?_reverse] at h
  exact head?_dropWhile h

theorem pyLower_eq_self : ∀ {l : List Char},
    (∀ c ∈ l, validCh c = true) → pyLower l = l := by
  intro l
  induction l with
  | nil => intro _; rfl
  | cons c rest ih =>
    intro h
    have h1 : pyLower (c :: rest) = lowerCh c :: pyLower rest := rfl
    rw [h1, lowerCh_of_valid (h c (List.mem_cons_self c rest)),
      ih (fun d hd => h d (List.mem_cons_of_mem c hd))]

/-! ### No-double-underscore structure -/

theorem NoDD_reverse {l : List Char} (h : NoDD l) : NoDD l.reverse := by
  rw [NoDD, List.chain'_reverse]
  exact h.imp (fun a b hab => Or.symm hab)

theorem NoDD_head_tail {c : Char} {rest : List Char} (h : NoDD (c :: rest))
    (hc : isUndCh c = true) : ∀ d, rest.head? = some d → isUndCh d = false := by
  intro d hd
  cases rest with
  | nil => simp at hd
  | cons e r =>
    obtain rfl : e = d := by simpa using hd
    rcases (List.chain'_cons.mp h).1 with h1 | h1
    · simp [hc] at h1
    · exact h1

theorem head_collapseUAux_true :
    ∀ (l : List Char) (d : Char), (collapseUAux true l).head? = some d →
      isUndCh d = false := by
  intro l
  induction l with
  | nil => intro d h; simp [collapseUAux] at h
  | cons c rest ih =>
    intro d h
    by_cases hc : isUndCh c
    · rw [collapseUAux_cons_true_und hc] at h
      exact ih d h
    · have hc' : isUndCh c = false := by simpa using hc
      rw [collapseUAux_cons_other true hc'] at h
      obtain rfl : c = d := by simpa using h
      exact hc'

theorem NoDD_collapseUAux : ∀ (l : List Char) (flag : Bool),
    NoDD (collapseUAux flag l) := by
  intro l
  induction l with
  | nil => intro flag; exact List.chain'_nil
  | cons c rest ih =>
    intro flag
    by_cases hc : isUndCh c
    · cases flag with
      | true =>
        rw [collapseUAux_cons_true_und hc]
        exact ih true
      | false =>
        rw [collapseUAux_cons_false_und hc]
        exact (ih true).cons'
          (fun y hy => Or.inr (head_collapseUAux_true rest y hy))
    · have hc' : isUndCh c = false := by simpa using hc
      rw [collapseUAux_cons_other flag hc']
      exact (ih false).cons' (fun y _ => Or.inl hc')

/-! ### The sanitizer fixes its own output -/

theorem NoDD_dropTrailWhile {p : Char → Bool} {l : List Char} (h : NoDD l) :
    NoDD (dropTrailWhile p l) :=
  NoDD_reverse ((NoDD_reverse h).suffix (List.dropWhile_suffix p))

theorem subRunsAux_fix : ∀ (l : List Char),
    (∀ c ∈ l, isAlnumCh c = true ∨ isUndCh c = true) → NoDD l →
      subRunsAux false l = l ∧
        ((∀ d, l.head? = some d → isUndCh d = false) → subRunsAux true l = l) := by
  intro l
  induction l with
  | nil => intro _ _; exact ⟨rfl, fun _ => rfl⟩
  | cons c rest ih =>
    intro hmem hnd
    have hrest := ih (fun d hd => hmem d (List.mem_cons_of_mem c hd)) hnd.tail
    rcases hmem c (List.mem_cons_self c rest) with hc | hc
    · refine ⟨?_, fun _ => ?_⟩ <;>
        rw [subRunsAux_cons_alnum _ hc, hrest.1]
    · have hca : isAlnumCh c = false := und_not_alnum hc
      constructor
      · rw [subRunsAux_cons_false hca, hrest.2 (NoDD_head_tail hnd hc),
          (isUndCh_iff c).mp hc]
      · intro hhead
        have := hhead c rfl
        simp [this] at hc

theorem collapseUAux_fix : ∀ (l : List Char), NoDD l →
    collapseUAux false l = l ∧
      ((∀ d, l.head? = some d → isUndCh d = false) → collapseUAux true l = l) := by
  intro l
  induction l with
  | nil => intro _; exact ⟨rfl, fun _ => rfl⟩
  | cons c rest ih =>
    intro hnd
    have hrest := ih hnd.tail
    by_cases hc : isUndCh c
    · constructor
      · rw [collapseUAux_cons_false_und hc, hrest.2 (NoDD_head_tail hnd hc)]
      · intro hhead
        have := hhead c rfl
        simp [this] at hc
    · have hc' : isUndCh c = false := by simpa using hc
      exact ⟨by rw [collapseUAux_cons_other false hc', hrest.1],
        fun _ => by rw [collapseUAux_cons_other true hc', hrest.1]⟩

theorem pyStrip_eq_self {l : List Char} (h : ∀ c ∈ l, isSpaceCh c = false) :
    pyStrip l = l := by
  unfold pyStrip
  rw [dropWhile_eq_self_of_all h, dropTrailWhile_eq_self_of_all h]

theorem stripUnd_eq_self {l : List Char}
    (hh : ∀ d, l.head? = some d → isUndCh d = false)
    (hg : ∀ d, l.getLast? = some d → isUndCh d = false) : stripUnd l = l := by
  unfold stripUnd
  rw [dropWhile_eq_self_of_head hh, dropTrailWhile_eq_self_of_getLast hg]

/-- The pipeline written through the named final stages; definitionally the
same function as `sanitizeChars`. -/
theorem sanitizeChars_eq_stages (l : List Char) :
    sanitizeChars l =
      digitStage (colStage (pyLower (stripUnd (collapseU (subRuns (pyStrip l)))))) := rfl

/-- Structure of every sanitizer output: no adjacent underscores, and
neither the first nor the last character is an underscore. -/
theorem sanitizeChars_struct (l : List Char) :
    NoDD (sanitizeChars l) ∧
      (∀ d, (sanitizeChars l).head? = some d → isUndCh d = false) ∧
      (∀ d, (sanitizeChars l).getLast? = some d → isUndCh d = false) := by
  rw [sanitizeChars_eq_stages]
  set m3 := collapseU (subRuns (pyStrip l)) with hm3
  have hnd3 : NoDD m3 := NoDD_collapseUAux _ false
  set ms := stripUnd m3 with hms
  have hnds : NoDD ms :=
    NoDD_dropTrailWhile (hnd3.suffix (List.dropWhile_suffix isUndCh))
  have hhs : ∀ d, ms.head? = some d → isUndCh d = false := by
    intro d hd
    exact head?_dropWhile (head?_dropTrailWhile hd)
  have hgs : ∀ d, ms.getLast? = some d → isUndCh d = false := by
    intro d hd
    exact getLast?_dropTrailWhile hd
  set s4 := pyLower ms with hs4
  have hnd4 : NoDD s4 := by
    rw [hs4, pyLower, NoDD, List.chain'_map]
    exact hnds.imp (fun a b hab =>
      hab.imp (fun h => isUndCh_lowerCh h) (fun h => isUndCh_lowerCh h))
  have hh4 : ∀ d, s4.head? = some d → isUndCh d = false := by
    intro d hd
    rw [hs4, pyLower, List.head?_map] at hd
    cases he : ms.head? with
    | none => rw [he] at hd; simp at hd
    | some e =>
      rw [he] at hd
      obtain rfl : lowerCh e = d := by simpa using hd
      exact isUndCh_lowerCh (hhs e he)
  have hg4 : ∀ d, s4.getLast? = some d → isUndCh d = false := by
    intro d hd
    rw [hs4, pyLower, List.getLast?_map] at hd
    cases he : ms.getLast? with
    | none => rw [he] at hd; simp at hd
    | some e =>
      rw [he] at hd
      obtain rfl : lowerCh e = d := by simpa using hd
      exact isUndCh_lowerCh (hgs e he)
  clear_value s4
  clear hm3 hms hnd3 hnds hhs hgs
  by_cases h4 : s4 = []
  · subst h4
    rw [colStage, if_pos rfl]
    refine ⟨?_, ?_, ?_⟩ <;> rw [digitStage] <;> rw [if_neg (by decide)]
    · exact List.chain'_cons.mpr ⟨Or.inl (by decide),
        List.chain'_cons.mpr ⟨Or.inl (by decide), List.chain'_singleton _⟩⟩
    · intro d hd
      obtain rfl : 'c' = d := by simpa using hd
      decide
    · intro d hd
      obtain rfl : 'l' = d := by simpa using hd
      decide
  · rw [colStage, if_neg h4]
    cases s4 with
    | nil => exact absurd rfl h4
    | cons e s4' =>
      rw [digitStage]
      by_cases hdg : isDigitCh ((e :: s4').headD 'a')
      · rw [if_pos hdg]
        have he_dig : isDigitCh e = true := by simpa using hdg
        have he_und : isUndCh e = false := digit_not_und he_dig
        refine ⟨?_, ?_, ?_⟩
        · exact ((hnd4.cons' (fun y hy => by
            obtain rfl : e = y := by simpa using hy
            exact Or.inr he_und)).cons'
              (fun y hy => by
                obtain rfl : '_' = y := by simpa using hy
                exact Or.inl (by decide)))
        · intro d hd
          obtain rfl : 'c' = d := by simpa using hd
          decide
        · intro d hd
          rw [List.getLast?_cons_cons, List.getLast?_cons_cons] at hd
          exact hg4 d hd
      · rw [if_neg hdg]
        exact ⟨hnd4, hh4, hg4⟩

/-- On a list that already has the structure of a sanitizer output, the
sanitizer is the identity. -/
theorem sanitizeChars_fix {r : List Char} (hne : r ≠ [])
    (hval : ∀ c ∈ r, validCh c = true) (hnd : NoDD r)
    (hh : ∀ d, r.head? = some d → isUndCh d = false)
    (hg : ∀ d, r.getLast? = some d → isUndCh d = false)
    (hdg : isDigitCh (r.headD 'a') = false) : sanitizeChars r = r := by
  rw [sanitizeChars_eq_stages]
  rw [pyStrip_eq_self (fun c hc => validCh_not_space (hval c hc))]
  rw [show subRuns r = r from
      (subRunsAux_fix r (fun c hc => validCh_alnum_or_und (hval c hc)) hnd).1]
  rw [show collapseU r = r from (collapseUAux_fix r hnd).1]
  rw [stripUnd_eq_self hh hg]
  rw [pyLower_eq_self hval]
  have hdg2 : ¬ isDigitCh (r.headD 'a') = true := by
    intro h
    rw [h] at hdg
    simp at hdg
  rw [colStage, if_neg hne, digitStage, if_neg hdg2]

/-- C6: `sanitize_identifier` is idempotent, and fixes the already-clean
identifier `already_safe`. -/
theorem sanitize_identifier_idempotent :
    (∀ s : String,
        sanitize_identifier (sanitize_identifier s) = sanitize_identifier s) ∧
      sanitize_identifier "already_safe" = "already_safe" := by
  refine ⟨fun s => ?_, rfl⟩
  have hv := sanitizeChars_valid s.data
  have hst := sanitizeChars_struct s.data
  apply String.ext
  rw [data_sanitize_identifier, data_sanitize_identifier,
    sanitizeChars_fix hv.1 hv.2.1 hst.1 hst.2.1 hst.2.2 hv.2.2]

/-! ### `str.replace` lemmas -/

theorem data_pyReplace (old new s : String) :
    (pyReplace old new s).data = replaceAll old.data new.data s.data := by
  rw [pyReplace]

theorem replaceAllF_nil (needle repl : List Char) (fuel : Nat) :
    replaceAllF needle repl fuel [] = [] := by
  cases fuel <;> rfl

theorem replaceAllF_fuelIrrel (needle repl : List Char) :
    ∀ (f1 f2 : Nat) (l : List Char), l.length ≤ f1 → l.length ≤ f2 →
      replaceAllF needle repl f1 l = replaceAllF needle repl f2 l := by
  intro f1
  induction f1 with
  | zero =>
    intro f2 l h1 _
    have hl : l = [] := List.length_eq_zero.mp (Nat.le_zero.mp h1)
    subst hl
    rw [replaceAllF_nil, replaceAllF_nil]
  | succ f1' ih =>
    intro f2 l h1 h2
    cases l with
    | nil => rw [replaceAllF_nil, replaceAllF_nil]
    | cons c rest =>
      cases f2 with
      | zero => simp at h2
      | succ f2' =>
        rw [replaceAllF, replaceAllF]
        by_cases hp : needle ≠ [] ∧ needle.isPrefixOf (c :: rest)
        · rw [if_pos hp, if_pos hp]
          have hn : 1 ≤ needle.length := List.length_pos.mpr hp.1
          have hd1 : (List.drop needle.length (c :: rest)).length ≤ f1' := by
            rw [List.length_drop]
            simp only [List.length_cons] at h1 ⊢
            omega
          have hd2 : (List.drop needle.length (c :: rest)).length ≤ f2' := by
            rw [List.length_drop]
            simp only [List.length_cons] at h2 ⊢
            omega
          rw [ih _ _ hd1 hd2]
        · rw [if_neg hp, if_neg hp]
          have hr1 : rest.length ≤ f1' := by
            simp only [List.length_cons] at h1
            omega
          have hr2 : rest.length ≤ f2' := by
            simp only [List.length_cons] at h2
            omega
          rw [ih _ _ hr1 hr2]

theorem replaceAll_cons_not {needle : List Char} (repl : List Char) {c : Char}
    {rest : List Char} (h : needle.isPrefixOf (c :: rest) = false) :
    replaceAll needle repl (c :: rest) = c :: replaceAll needle repl rest := by
  rw [replaceAll, List.length_cons, replaceAllF, if_neg (by simp [h])]
  rfl

theorem containsSeq_cons_false {needle : List Char} {c : Char} {rest : List Char}
    (h : containsSeq needle (c :: rest) = false) :
    needle.isPrefixOf (c :: rest) = false ∧ containsSeq needle rest = false := by
  rw [containsSeq] at h
  exact Bool.or_eq_false_iff.mp h

theorem replaceAllF_of_not_contains {needle : List Char} (repl : List Char) :
    ∀ (fuel : Nat) (l : List Char), containsSeq needle l = false →
      replaceAllF needle repl fuel l = l := by
  intro fuel
  induction fuel with
  | zero => intro l _; cases l <;> rfl
  | succ f ih =>
    intro l h
    cases l with
    | nil => rfl
    | cons c rest =>
      obtain ⟨h1, h2⟩ := containsSeq_cons_false h
      rw [replaceAllF, if_neg (by simp [h1]), ih rest h2]

theorem replaceAll_of_not_contains {needle : List Char} (repl : List Char)
    {l : List Char} (h : containsSeq needle l = false) :
    replaceAll needle repl l = l :=
  replaceAllF_of_not_contains repl l.length l h

theorem replaceAll_append_self {needle : List Char} (repl : List Char)
    (b : List Char) (hne : needle ≠ []) :
    replaceAll needle repl (needle ++ b) = repl ++ replaceAll needle repl b := by
  obtain ⟨n0, n', rfl⟩ : ∃ n0 n', needle = n0 :: n' := by
    cases needle with
    | nil => exact absurd rfl hne
    | cons x xs => exact ⟨x, xs, rfl⟩
  have hpre : (n0 :: n').isPrefixOf (n0 :: (n' ++ b)) = true :=
    List.isPrefixOf_iff_prefix.mpr ⟨b, rfl⟩
  show replaceAll (n0 :: n') repl (n0 :: (n' ++ b)) = _
  rw [replaceAll, List.length_cons, replaceAllF, if_pos ⟨hne, hpre⟩]
  congr 1
  have hdrop : List.drop (n0 :: n').length (n0 :: (n' ++ b)) = b :=
    List.drop_left (n0 :: n') b
  rw [hdrop, replaceAll]
  apply replaceAllF_fuelIrrel
  · rw [List.length_append]
    omega
  · exact Nat.le_refl _

theorem containsSeq_of_isPrefixOf {needle l : List Char} (hne : l ≠ [])
    (h : needle.isPrefixOf l = true) : containsSeq needle l = true := by
  cases l with
  | nil => exact absurd rfl hne
  | cons c rest => rw [containsSeq, h, Bool.true_or]

theorem replaceAll_split (needle repl : List Char) (hne : needle ≠ []) :
    ∀ (a b : List Char),
      containsSeq needle (a ++ needle.dropLast) = false →
      replaceAll needle repl (a ++ needle ++ b) =
        a ++ repl ++ replaceAll needle repl b := by
  intro a
  induction a with
  | nil =>
    intro b _
    show replaceAll needle repl (needle ++ b) = repl ++ replaceAll needle repl b
    exact replaceAll_append_self repl b hne
  | cons c a' ih =>
    intro b hnc
    have hnc2 : containsSeq needle (c :: (a' ++ needle.dropLast)) = false := hnc
    have hstep : needle.isPrefixOf (c :: (a' ++ needle ++ b)) = false := by
      by_contra hcon
      have hp : needle.isPrefixOf (c :: (a' ++ needle ++ b)) = true := by
        simpa using hcon
      have hpre : needle <+: c :: (a' ++ needle ++ b) :=
        List.isPrefixOf_iff_prefix.mp hp
      have hpre2 : c :: (a' ++ needle.dropLast) <+: c :: (a' ++ needle ++ b) := by
        refine ⟨[needle.getLast hne] ++ b, ?_⟩
        show c :: ((a' ++ needle.dropLast) ++ ([needle.getLast hne] ++ b)) = _
        rw [List.append_assoc a' needle.dropLast,
          ← List.append_assoc needle.dropLast,
          List.dropLast_append_getLast hne, ← List.append_assoc]
      have hlen : needle.length ≤ (c :: (a' ++ needle.dropLast)).length := by
        rw [List.length_cons, List.length_append, List.length_dropLast]
        have h1 : 1 ≤ needle.length := List.length_pos.mpr hne
        omega
      have hin : needle <+: c :: (a' ++ needle.dropLast) :=
        List.prefix_of_prefix_length_le hpre hpre2 hlen
      have htrue : containsSeq needle (c :: (a' ++ needle.dropLast)) = true :=
        containsSeq_of_isPrefixOf (by simp)
          (List.isPrefixOf_iff_prefix.mpr hin)
      rw [htrue] at hnc2
      cases hnc2
    have hnc' : containsSeq needle (a' ++ needle.dropLast) = false :=
      (containsSeq_cons_false hnc2).2
    show replaceAll needle repl (c :: (a' ++ needle ++ b)) =
      c :: (a' ++ repl ++ replaceAll needle repl b)
    rw [replaceAll_cons_not repl hstep, ih b hnc']

/-! ### C7 and C8 -/

/-- C7: the mapping builder emits one pair per column, in schema order,
pairing each original with its sanitized form; it is deterministic (a pure
function of the ordered column list), and neither deduplicates nor detects
collisions — two distinct originals with the same sanitized form both
stay, as the concrete collision shows. -/
theorem buildPairs_order_length_no_dedup (cols : List String) :
    (buildPairs cols).length = cols.length ∧
      (buildPairs cols).map Prod.fst = cols ∧
      (buildPairs cols).map Prod.snd = cols.map sanitize_identifier ∧
      buildPairs ["Team Name", "Team_Name"] =
        [("Team Name", "team_name"), ("Team_Name", "team_name")] := by
  refine ⟨List.length_map _ _, ?_, ?_, rfl⟩
  · simp [buildPairs, List.map_map, Function.comp_def]
  · simp [buildPairs, List.map_map, Function.comp_def]

theorem replaceAllF_singleton (a : Char) (r : List Char) :
    ∀ (fuel : Nat) (l : List Char), l.length ≤ fuel →
      replaceAllF [a] r fuel l =
        l.flatMap (fun c => if c = a then r else [c]) := by
  intro fuel
  induction fuel with
  | zero =>
    intro l h
    have hl : l = [] := List.length_eq_zero.mp (Nat.le_zero.mp h)
    subst hl
    rfl
  | succ f ih =>
    intro l h
    cases l with
    | nil => rfl
    | cons c rest =>
      have hr : rest.length ≤ f := by
        simp only [List.length_cons] at h
        omega
      by_cases hc : c = a
      · subst hc
        rw [replaceAllF, if_pos ⟨by simp, by simp [List.isPrefixOf]⟩]
        rw [show List.drop ([c] : List Char).length (c :: rest) = rest from rfl]
        rw [ih rest hr]
        simp [List.flatMap_cons]
      · rw [replaceAllF, if_neg ?_, ih rest hr]
        · simp [List.flatMap_cons, hc]
        · intro hcon
          have h2 := hcon.2
          simp only [List.isPrefixOf, Bool.and_eq_true, beq_iff_eq] at h2
          exact hc h2.1.symm

/-- C8: `escape_path` replaces every single backslash with two backslashes
and changes nothing else — character by character, a backslash becomes two
and every other character (single quotes included) is kept — and on the
spec's example path it doubles both backslashes. -/
theorem escape_path_doubles_backslashes (p : String) :
    (escape_path p).data =
      p.data.flatMap (fun c => if c = '\\' then ['\\', '\\'] else [c]) ∧
      escape_path "C:\\data\\f.csv" = "C:\\\\data\\\\f.csv" := by
  constructor
  · rw [escape_path, data_pyReplace]
    exact replaceAllF_singleton '\\' ['\\', '\\'] p.data.length p.data
      (Nat.le_refl _)
  · rfl

/-! ### The query rewriter theorems -/

theorem data_rewriteQuery (pairs : List (String × String)) (template : String) :
    (rewriteQuery pairs template).data =
      replaceAll marker.data (subqueryOf pairs).data template.data := by
  rw [rewriteQuery, data_pyReplace]

/-- C5: when the marker does not occur in the template, the rewriter
returns the template unchanged — a no-op, not an error. -/
theorem rewriteQuery_noop_of_no_marker (pairs : List (String × String))
    (template : String)
    (h : containsSeq marker.data template.data = false) :
    rewriteQuery pairs template = template := by
  apply String.ext
  rw [data_rewriteQuery]
  exact replaceAll_of_not_contains _ h

theorem rewriteQuery_noop_witness :
    containsSeq marker.data ("SELECT 1" : String).data = false ∧
      rewriteQuery [("a", "b")] "SELECT 1" = "SELECT 1" :=
  ⟨by decide, rewriteQuery_noop_of_no_marker [("a", "b")] "SELECT 1" (by decide)⟩

/-- C4: the rewriter builds the projection list `"<original>" AS
<sanitized>` joined by commas in mapping order, wraps it as `(SELECT …
FROM read_csv_auto('{csv}'))`, and substitutes that subquery for the
marker; on the spec's scenario the subquery stands verbatim in the
marker's place. -/
theorem rewriteQuery_substitutes_subquery (pairs : List (String × String))
    (a b : String)
    (h1 : containsSeq marker.data (a.data ++ marker.data.dropLast) = false)
    (h2 : containsSeq marker.data b.data = false) :
    rewriteQuery pairs (a ++ marker ++ b) = a ++ subqueryOf pairs ++ b ∧
      subqueryOf pairs =
        "(SELECT " ++ select_list pairs ++ " FROM read_csv_auto('{csv}'))" ∧
      select_list pairs = String.intercalate ", "
        (pairs.map (fun p => "\"" ++ p.1 ++ "\" AS " ++ p.2)) ∧
      rewriteQuery [("Team Name", "team_name")]
          "SELECT a FROM read_csv_auto('{csv}')" =
        "SELECT a FROM (SELECT \"Team Name\" AS team_name FROM read_csv_auto('{csv}'))" := by
  refine ⟨?_, rfl, rfl, rfl⟩
  apply String.ext
  rw [data_rewriteQuery]
  simp only [String.data_append]
  rw [replaceAll_split marker.data (subqueryOf pairs).data (by decide)
    a.data b.data h1]
  rw [replaceAll_of_not_contains _ h2]

theorem rewriteQuery_substitutes_witness :
    containsSeq marker.data
        (("SELECT a FROM " : String).data ++ marker.data.dropLast) = false ∧
      rewriteQuery [("Team Name", "team_name")]
          ("SELECT a FROM " ++ marker ++ "") =
        "SELECT a FROM " ++ subqueryOf [("Team Name", "team_name")] ++ "" :=
  ⟨by decide, (rewriteQuery_substitutes_subquery [("Team Name", "team_name")]
    "SELECT a FROM " "" (by decide) (by decide)).1⟩

/-- C3 as stated is false: on a template holding two occurrences of the
marker, the rewriter's output differs from the replace-only-the-first
behaviour the claim describes (the second occurrence is rewritten too). -/
theorem rewriteQuery_ne_replaceFirst :
    rewriteQuery [("a", "b")] (marker ++ marker) ≠
      ⟨replaceFirst marker.data (subqueryOf [("a", "b")]).data
        (marker ++ marker).data⟩ := by
  decide

/-- C3 amended: the rewriter replaces every non-overlapping textual
occurrence of the marker, scanning left to right — after substituting the
subquery for an occurrence it keeps rewriting the remainder of the
template, so later occurrences are replaced as well; in particular both
markers of a two-marker template are replaced. -/
theorem rewriteQuery_replaces_every_occurrence (pairs : List (String × String))
    (a b : String)
    (h1 : containsSeq marker.data (a.data ++ marker.data.dropLast) = false) :
    rewriteQuery pairs (a ++ marker ++ b) =
      a ++ subqueryOf pairs ++ rewriteQuery pairs b ∧
      rewriteQuery [("a", "b")] (marker ++ marker) =
        subqueryOf [("a", "b")] ++ subqueryOf [("a", "b")] := by
  constructor
  · apply String.ext
    rw [data_rewriteQuery]
    simp only [String.data_append]
    rw [replaceAll_split marker.data (subqueryOf pairs).data (by decide)
      a.data b.data h1]
    rw [data_rewriteQuery]
  · decide

theorem rewriteQuery_replaces_every_witness :
    containsSeq marker.data
        (("X " : String).data ++ marker.data.dropLast) = false ∧
      rewriteQuery [("a", "b")] ("X " ++ marker ++ marker) =
        "X " ++ subqueryOf [("a", "b")] ++ rewriteQuery [("a", "b")] marker :=
  ⟨by decide, (rewriteQuery_replaces_every_occurrence [("a", "b")] "X " marker
    (by decide)).1⟩

/-! ### C10: the `--show-safe` example truncates to twenty entries -/

/-- C10: the printed mapping lists one pair per schema column, but the
example subquery's projection is built from `mapping[:20]` only; with more
than twenty columns the example holds exactly twenty entries, fewer than
the mapping. -/
theorem showSafe_example_truncates_to_20 (cols : List String)
    (h : 20 < cols.length) :
    (buildPairs cols).length = cols.length ∧
      exampleEntries cols = (buildPairs cols).take 20 ∧
      (exampleEntries cols).length = 20 ∧
      (exampleEntries cols).length < (buildPairs cols).length ∧
      exampleSafeCols cols = String.intercalate ", "
        (((buildPairs cols).take 20).map
          (fun r => "\"" ++ r.1 ++ "\" as " ++ r.2)) := by
  have hlen : (buildPairs cols).length = cols.length := List.length_map _ _
  have htake : (exampleEntries cols).length = 20 := by
    rw [exampleEntries, List.length_take, hlen]
    exact Nat.min_eq_left (by omega)
  exact ⟨hlen, rfl, htake, by omega, rfl⟩

theorem showSafe_truncates_witness :
    20 < (List.replicate 21 "A").length ∧
      (buildPairs (List.replicate 21 "A")).length =
        (List.replicate 21 "A").length ∧
      (exampleEntries (List.replicate 21 "A")).length = 20 :=
  ⟨by decide,
    (showSafe_example_truncates_to_20 (List.replicate 21 "A") (by decide)).1,
    (showSafe_example_truncates_to_20 (List.replicate 21 "A") (by decide)).2.2.1⟩

/-! ### C9: error handling around the engine -/

/-- C9: an engine failure while probing the schema is caught by
`show_columns` and comes back as an absent schema (`none`), whereupon the
`--show-columns` branch of `main` prints the diagnostic and exits with
status 1; an engine failure during query execution in `run_query` is not
caught and propagates to the caller as the error itself. -/
theorem probe_error_caught_query_error_propagates (engine : Engine)
    (csv q : String) (e1 e2 : EngineError)
    (hprobe : engine (probeSql csv) = Except.error e1)
    (hquery : engine (formatCsv q csv) = Except.error e2) :
    show_columns engine csv = none ∧
      mainShowColumns engine csv = MainOutcome.exited 1
        "No columns/empty file or unable to read columns." ∧
      run_query engine csv q = Except.error e2 := by
  have h1 : show_columns engine csv = none := by
    unfold show_columns
    rw [hprobe]
  refine ⟨h1, ?_, ?_⟩
  · unfold mainShowColumns
    rw [h1]
  · unfold run_query
    exact hquery

theorem probe_error_witness :
    show_columns (fun _ => Except.error ⟨"boom"⟩) "f.csv" = none ∧
      mainShowColumns (fun _ => Except.error ⟨"boom"⟩) "f.csv" =
        MainOutcome.exited 1 "No columns/empty file or unable to read columns." ∧
      run_query (fun _ => Except.error ⟨"boom"⟩) "f.csv" "SELECT 1" =
        Except.error ⟨"boom"⟩ :=
  probe_error_caught_query_error_propagates (fun _ => Except.error ⟨"boom"⟩)
    "f.csv" "SELECT 1" ⟨"boom"⟩ ⟨"boom"⟩ rfl rfl

end QueryCsv
